import Mathlib

/-
Shallow embedding of `src/docx_to_md.py`: a docx-to-markdown converter.

The document-format reader (python-docx) is an external collaborator; the
embedding models the in-memory tree it exposes: paragraphs carrying a text
and an optional style (whose name is itself optional), and tables as lists
of rows, each row a list of cell texts.

Python string primitives are embedded over `List Char`:
  * `x in s`        → `strHasSub x.data s.data`
  * `s.startswith x`→ `strHasPre x.data s.data`
  * `s.lower()`     → `lowerStr` (per-character `Char.toLower`, ASCII like
                      the labels the program inspects)
  * `s.strip()`     → `pyStrip` (drop leading and trailing whitespace)
  * `s.replace("\n", " ")` → `pyReplaceNl` (the needle is one character,
                      so the replacement is a character map)
  * `"x" * n`       → `strRepeat`
  * `list.insert(i, x)` with Python index semantics → `pyInsert`
-/

/-- Whitespace characters recognised by Python `str.strip` (ASCII range). -/
def pyIsSpace (c : Char) : Bool :=
  c == ' ' || c == '\t' || c == '\n' || c == '\r' || c == '\x0b' || c == '\x0c'

/-- Strip leading and trailing whitespace from a character list. -/
def stripL (l : List Char) : List Char :=
  ((l.dropWhile pyIsSpace).reverse.dropWhile pyIsSpace).reverse

/-- Python `s.strip()`. -/
def pyStrip (s : String) : String := ⟨stripL s.data⟩

/-- Python `s.lower()` (per-character lowering). -/
def lowerStr (s : String) : String := ⟨s.data.map Char.toLower⟩

/-- Python `s.replace("\n", " ")`: the needle is a single character, so this
is a character-wise map. -/
def pyReplaceNl (s : String) : String :=
  ⟨s.data.map (fun ch => if ch == '\n' then ' ' else ch)⟩

/-- Does `needle` occur at the head of `hay`? (Python `startswith`.) -/
def strHasPre : List Char → List Char → Bool
  | [], _ => true
  | _ :: _, [] => false
  | a :: as, b :: bs => a == b && strHasPre as bs

/-- Does `needle` occur anywhere in `hay`? (Python `in` on strings.) -/
def strHasSub (needle : List Char) : List Char → Bool
  | [] => strHasPre needle []
  | c :: cs => strHasPre needle (c :: cs) || strHasSub needle cs

/-- Python `needle in hay` on strings. -/
def containsStr (needle hay : String) : Bool := strHasSub needle.data hay.data

/-- Python `hay.startswith(needle)`. -/
def startsWithStr (needle hay : String) : Bool := strHasPre needle.data hay.data

/-- Python `s * n` for strings. -/
def strRepeat (s : String) (n : Nat) : String := String.join (List.replicate n s)

/-- Python `list.insert(idx, x)`: a negative index counts from the end and is
clamped at 0; a positive index is clamped at the length. -/
def pyInsert {α : Type} (l : List α) (idx : Int) (x : α) : List α :=
  let pos : Nat := if idx < 0 then ((l.length : Int) + idx).toNat else min idx.toNat l.length
  l.take pos ++ x :: l.drop pos

/-- A paragraph style as exposed by the reader: its name may be absent. -/
structure Style where
  name : Option String

/-- A paragraph: a text and an optional style. -/
structure Paragraph where
  text : String
  style : Option Style

/-- A document: its paragraphs and its tables (a table is a list of rows,
each row the list of its cells' texts). -/
structure DocxDocument where
  paragraphs : List Paragraph
  tables : List (List (List String))

/-- Source `get_style_name(paragraph)`: `None` when the paragraph has no
style; otherwise the lowered style name when it contains "heading" or starts
with "title", else the marker string "normal". -/
def get_style_name (p : Paragraph) : Option String :=
  match p.style with
  | none => none
  | some st =>
    let name := lowerStr (st.name.getD "")
    if containsStr "heading" name || startsWithStr "title" name then some name
    else some "normal"

/-- Source `heading_level(style_name)`: maps a style name to a markdown
heading level in 0..6 (0 meaning "not a heading"). -/
def heading_level (style_name : Option String) : Nat :=
  match style_name with
  | none => 0
  | some s =>
    if s = "" then 0
    else
      let name := lowerStr s
      if containsStr "title" name then 1
      else
        match (List.range' 1 9).find?
            (fun i => containsStr ("heading " ++ toString i) name
                   || containsStr ("heading" ++ toString i) name) with
        | some i => min i 6
        | none => if containsStr "heading" name then 2 else 0

/-- Source `paragraph_to_md(paragraph)`: strip the text, return "" when it
is empty, otherwise a heading line of `level` hash marks or the bare text. -/
def paragraph_to_md (p : Paragraph) : String :=
  let text := pyStrip p.text
  if text = "" then ""
  else
    let level := heading_level (get_style_name p)
    if 1 ≤ level then ⟨List.replicate level '#'⟩ ++ " " ++ text
    else text

/-- One rendered table row: the source's
`"| " + " | ".join(cell.text.strip().replace("\n", " ") for ...) + " |"`. -/
def cellText (c : String) : String := pyReplaceNl (pyStrip c)

/-- The line the source builds for one table row. -/
def rowLine (row : List String) : String :=
  "| " ++ String.intercalate " | " (row.map cellText) ++ " |"

/-- The body of the source's `for table in doc.tables` loop, acting on the
accumulated `lines` list. -/
def tableStep (lines : List String) (table : List (List String)) : List String :=
  let rows := table.map rowLine
  if rows.isEmpty then lines
  else
    let withRows := lines ++ [""] ++ rows
    let withSep :=
      if 2 ≤ rows.length then
        pyInsert withRows (-(rows.length : Int) + 1)
          ("|" ++ strRepeat " --- |" (table.headD []).length)
      else withRows
    withSep ++ [""]

/-- Source `docx_to_md(docx_path)`, with the parsed document as input: the
paragraph loop appends each non-empty paragraph line, the table loop appends
each table's block, and the result joins the lines with blank lines. -/
def docx_to_md (doc : DocxDocument) : String :=
  let lines := doc.paragraphs.foldl
    (fun acc para =>
      let line := paragraph_to_md para
      if line ≠ "" then acc ++ [line] else acc) []
  let lines2 := doc.tables.foldl tableStep lines
  String.intercalate "\n\n" lines2

/-! ### Character and string lemmas -/

/-- Lowering a character already produced by `Char.toLower` changes nothing
(helper for the concrete letter range). -/
lemma toLower_ofNat_fix (n : Nat) (h1 : 65 ≤ n) (h2 : n ≤ 90) :
    Char.toLower (Char.ofNat (n + 32)) = Char.ofNat (n + 32) := by
  interval_cases n <;> decide

/-- `Char.toLower` is idempotent. -/
lemma toLower_idem (c : Char) : Char.toLower (Char.toLower c) = Char.toLower c := by
  by_cases h : 65 ≤ c.toNat ∧ c.toNat ≤ 90
  · have hc : c.toLower = Char.ofNat (c.toNat + 32) := by
      unfold Char.toLower
      exact if_pos ⟨h.1, h.2⟩
    rw [hc]
    exact toLower_ofNat_fix c.toNat h.1 h.2
  · have hc : c.toLower = c := by
      unfold Char.toLower
      exact if_neg (fun hcon => h ⟨hcon.1, hcon.2⟩)
    rw [hc, hc]

/-- `lowerStr` is idempotent. -/
lemma lowerStr_idem (s : String) : lowerStr (lowerStr s) = lowerStr s := by
  unfold lowerStr
  refine congrArg String.mk ?_
  rw [List.map_map]
  exact List.map_congr_left (fun c _ => toLower_idem c)

/-- A needle with a character never occurs at the head of the empty list. -/
lemma strHasPre_cons_nil (c : Char) (cs : List Char) :
    strHasPre (c :: cs) [] = false := rfl

/-- A needle with a character never occurs in the empty list. -/
lemma strHasSub_cons_nil (c : Char) (cs : List Char) :
    strHasSub (c :: cs) [] = false := rfl

/-- If a concatenated needle occurs at the head, so does its first part. -/
lemma strHasPre_of_append (x y l : List Char) (h : strHasPre (x ++ y) l = true) :
    strHasPre x l = true := by
  induction x generalizing l with
  | nil => rfl
  | cons a as ih =>
    cases l with
    | nil => simp [strHasPre] at h
    | cons b bs =>
      simp only [List.cons_append, strHasPre, Bool.and_eq_true] at h ⊢
      exact ⟨h.1, ih bs h.2⟩

/-- If a concatenated needle occurs somewhere, so does its first part. -/
lemma strHasSub_of_append (x y l : List Char) (h : strHasSub (x ++ y) l = true) :
    strHasSub x l = true := by
  induction l with
  | nil =>
    cases x with
    | nil => rfl
    | cons a as => simp [strHasSub, strHasPre] at h
  | cons c cs ih =>
    simp only [strHasSub, Bool.or_eq_true] at h ⊢
    rcases h with h | h
    · exact Or.inl (strHasPre_of_append x y _ h)
    · exact Or.inr (ih h)

/-- An occurrence at the head is an occurrence. -/
lemma strHasSub_of_pre (x l : List Char) (h : strHasPre x l = true) :
    strHasSub x l = true := by
  cases l with
  | nil => simpa [strHasSub] using h
  | cons c cs => simp [strHasSub, h]

/-- A nonempty needle occurring somewhere forces a nonempty haystack. -/
lemma ne_nil_of_strHasSub (c : Char) (cs l : List Char)
    (h : strHasSub (c :: cs) l = true) : l ≠ [] := by
  intro hl
  subst hl
  simp [strHasSub, strHasPre] at h

/-! ### Strip lemmas -/

/-- The characters `stripL` removes at either end are whitespace, and nothing
else is removed: the original list splits as whitespace, the stripped core,
whitespace. -/
lemma stripL_decomp (l : List Char) :
    ∃ pre suf : List Char, pre.all pyIsSpace = true ∧ suf.all pyIsSpace = true ∧
      l = pre ++ stripL l ++ suf := by
  refine ⟨l.takeWhile pyIsSpace,
    ((l.dropWhile pyIsSpace).reverse.takeWhile pyIsSpace).reverse, ?_, ?_, ?_⟩
  · exact List.all_takeWhile
  · rw [List.all_eq_true]
    intro x hx
    rw [List.mem_reverse] at hx
    exact List.all_eq_true.mp List.all_takeWhile x hx
  · conv_lhs => rw [← List.takeWhile_append_dropWhile (p := pyIsSpace) (l := l)]
    rw [List.append_assoc]
    refine congrArg (l.takeWhile pyIsSpace ++ ·) ?_
    conv_lhs => rw [← List.reverse_reverse (l.dropWhile pyIsSpace),
      ← List.takeWhile_append_dropWhile (p := pyIsSpace)
        (l := (l.dropWhile pyIsSpace).reverse)]
    rw [List.reverse_append]
    rfl

/-- A list of whitespace characters strips to nothing. -/
lemma stripL_eq_nil_of_all (l : List Char) (h : l.all pyIsSpace = true) :
    stripL l = [] := by
  have h1 : l.dropWhile pyIsSpace = [] :=
    List.dropWhile_eq_nil_iff.mpr (fun x hx => List.all_eq_true.mp h x hx)
  simp [stripL, h1]

/-- Conversely, a list that strips to nothing is all whitespace. -/
lemma all_space_of_stripL_eq_nil (l : List Char) (h : stripL l = []) :
    l.all pyIsSpace = true := by
  obtain ⟨pre, suf, hpre, hsuf, hsplit⟩ := stripL_decomp l
  rw [h, List.append_nil] at hsplit
  rw [hsplit, List.all_append, hpre, hsuf]
  rfl

/-- `pyStrip` of an all-whitespace string is empty. -/
lemma pyStrip_eq_empty (s : String) (h : s.data.all pyIsSpace = true) :
    pyStrip s = "" := by
  unfold pyStrip
  rw [stripL_eq_nil_of_all s.data h]

/-! ### First match of the heading loop -/

/-- `find?` over `range' a len` returns `N` when `N` is in range, satisfies
the predicate, and every smaller in-range value fails it. -/
lemma find?_range'_first (p : Nat → Bool) (a len N : Nat)
    (h1 : a ≤ N) (h2 : N < a + len) (hp : p N = true)
    (hlt : ∀ M, a ≤ M → M < N → p M = false) :
    (List.range' a len).find? p = some N := by
  induction len generalizing a with
  | zero => omega
  | succ n ih =>
    have hrange : List.range' a (n + 1) = a :: List.range' (a + 1) n := rfl
    rw [hrange]
    rcases Nat.eq_or_lt_of_le h1 with heq | hlt2
    · subst heq
      exact List.find?_cons_of_pos _ hp
    · rw [List.find?_cons_of_neg _ (by simp [hlt a (Nat.le_refl a) hlt2])]
      exact ih (a + 1) hlt2 (by omega) (fun M hM1 hM2 => hlt M (by omega) hM2)

/-! ### Renderer decomposition -/

/-- The separator line the source builds for a table whose first row has
`n` cells. -/
def sepLine (n : Nat) : String := "|" ++ strRepeat " --- |" n

/-- The lines one table contributes to the output: nothing for an empty
table; a framed row line for a single-row table; a framed header, separator
(sized by the first row) and data rows otherwise. -/
def tableBlock (t : List (List String)) : List String :=
  match t with
  | [] => []
  | r0 :: rest =>
    match rest with
    | [] => ["", rowLine r0, ""]
    | _ :: _ => ["", rowLine r0, sepLine r0.length] ++ rest.map rowLine ++ [""]

/-- Inserting at a negative index that stays within the second part of an
appended list leaves the first part untouched. -/
lemma pyInsert_append {α : Type} (a b : List α) (j : Int) (x : α)
    (hneg : j < 0) (hbig : 0 ≤ (b.length : Int) + j) :
    pyInsert (a ++ b) j x = a ++ pyInsert b j x := by
  simp only [pyInsert]
  rw [if_pos hneg, if_pos hneg]
  have hpos : (((a ++ b).length : Int) + j).toNat
      = a.length + ((b.length : Int) + j).toNat := by
    rw [List.length_append]
    omega
  rw [hpos, List.take_append_eq_append_take, List.drop_append_eq_append_drop]
  have ht : a.take (a.length + ((b.length : Int) + j).toNat) = a :=
    List.take_of_length_le (Nat.le_add_right _ _)
  have hd : a.drop (a.length + ((b.length : Int) + j).toNat) = [] :=
    List.drop_eq_nil_of_le (Nat.le_add_right _ _)
  rw [ht, hd, Nat.add_sub_cancel_left]
  simp

/-- The source's insertion index `-len(rows) + 1` lands right after the
header row of the freshly appended block. -/
lemma pyInsert_block {α : Type} (e a b : α) (rest : List α) (x : α) :
    pyInsert (e :: a :: b :: rest) (-(((rest.length + 2 : Nat) : Int)) + 1) x
      = e :: a :: x :: b :: rest := by
  unfold pyInsert
  have hneg : (-(((rest.length + 2 : Nat) : Int)) + 1) < 0 := by omega
  rw [if_pos hneg]
  have hpos : (((e :: a :: b :: rest).length : Int)
      + (-(((rest.length + 2 : Nat) : Int)) + 1)).toNat = 2 := by
    simp only [List.length_cons]
    omega
  rw [hpos]
  rfl

/-- One pass of the table loop appends exactly that table's block. -/
lemma tableStep_eq (lines : List String) (t : List (List String)) :
    tableStep lines t = lines ++ tableBlock t := by
  match t with
  | [] => simp [tableStep, tableBlock]
  | [r0] => simp [tableStep, tableBlock]
  | r0 :: r1 :: rest =>
    simp only [tableStep, tableBlock, List.map_cons, List.isEmpty_cons,
      Bool.false_eq_true, if_false, List.length_cons, List.length_map,
      List.headD_cons]
    rw [if_pos (show 2 ≤ rest.length + 1 + 1 by omega)]
    have hassoc : lines ++ [""] ++ (rowLine r0 :: rowLine r1 :: rest.map rowLine)
        = lines ++ ("" :: rowLine r0 :: rowLine r1 :: rest.map rowLine) := by
      simp
    rw [hassoc]
    rw [pyInsert_append lines ("" :: rowLine r0 :: rowLine r1 :: rest.map rowLine)
      _ _ (by omega) (by simp only [List.length_cons, List.length_map]; omega)]
    have hidx : (-(((rest.length + 1 + 1 : Nat) : Int)) + 1)
        = (-((((rest.map rowLine).length + 2 : Nat) : Int)) + 1) := by
      simp only [List.length_map]
    rw [hidx, pyInsert_block]
    simp [sepLine]

/-- The whole table loop appends the concatenation of all table blocks. -/
lemma foldl_tableStep (ts : List (List (List String))) (init : List String) :
    ts.foldl tableStep init = init ++ (ts.map tableBlock).flatten := by
  induction ts generalizing init with
  | nil => simp
  | cons t ts ih =>
    simp only [List.foldl_cons, List.map_cons, List.flatten_cons]
    rw [ih, tableStep_eq, List.append_assoc]

/-- The paragraph loop collects exactly the non-empty paragraph lines. -/
lemma foldl_para (ps : List Paragraph) (init : List String) :
    ps.foldl
      (fun acc para =>
        let line := paragraph_to_md para
        if line ≠ "" then acc ++ [line] else acc) init
      = init ++ (ps.map paragraph_to_md).filter (fun l => l ≠ "") := by
  induction ps generalizing init with
  | nil => simp
  | cons p ps ih =>
    simp only [List.foldl_cons, List.map_cons, List.filter_cons]
    by_cases h : paragraph_to_md p = ""
    · rw [ih]
      simp [h]
    · rw [ih]
      simp [h]

/-- The output string is the blank-line join of: the non-empty paragraph
lines, then every table's block, in that order. -/
lemma docx_eq (doc : DocxDocument) :
    docx_to_md doc = String.intercalate "\n\n"
      ((doc.paragraphs.map paragraph_to_md).filter (fun l => l ≠ "")
        ++ (doc.tables.map tableBlock).flatten) := by
  simp only [docx_to_md]
  rw [foldl_para, foldl_tableStep]
  simp

/-! ### Classifier lemmas -/

/-- A string containing a nonempty needle is nonempty. -/
lemma ne_empty_of_sub (x : Char) (xs : List Char) (s : String)
    (h : strHasSub (x :: xs) s.data = true) : s ≠ "" := by
  intro hcon
  subst hcon
  simp [strHasSub, strHasPre] at h

/-- Membership in `range'` from interval bounds. -/
lemma mem_range'_of (a len M : Nat) (h1 : a ≤ M) (h2 : M < a + len) :
    M ∈ List.range' a len := by
  induction len generalizing a with
  | zero => omega
  | succ n ih =>
    rw [show List.range' a (n + 1) = a :: List.range' (a + 1) n from rfl]
    rcases Nat.eq_or_lt_of_le h1 with heq | hlt
    · exact heq ▸ List.mem_cons_self a _
    · exact List.mem_cons_of_mem _ (ih (a + 1) hlt (by omega))

/-- When the guard of `get_style_name` holds, the lowered name is returned. -/
lemma get_style_name_pass (txt s : String)
    (h : (containsStr "heading" (lowerStr s) || startsWithStr "title" (lowerStr s)) = true) :
    get_style_name ⟨txt, some ⟨some s⟩⟩ = some (lowerStr s) := by
  simp only [get_style_name, Option.getD]
  rw [if_pos h]

/-- When the guard of `get_style_name` fails, "normal" is returned. -/
lemma get_style_name_fail (txt s : String)
    (h : (containsStr "heading" (lowerStr s) || startsWithStr "title" (lowerStr s)) = false) :
    get_style_name ⟨txt, some ⟨some s⟩⟩ = some "normal" := by
  simp only [get_style_name, Option.getD]
  rw [if_neg (by simp [h])]

/-! ### C1: labels containing "title" -/

/-- C1 counterexample: the style label "Subtitle" contains "title"
(case-insensitively), yet the classifier (style-name extraction composed
with heading-level mapping) returns 0, not 1: `get_style_name` only honours
labels that contain "heading" or START with "title", and sends "Subtitle"
to "normal". -/
theorem c1_counterexample :
    containsStr "title" (lowerStr "Subtitle") = true
    ∧ heading_level (get_style_name ⟨"x", some ⟨some "Subtitle"⟩⟩) = 0
    ∧ heading_level (get_style_name ⟨"x", some ⟨some "Subtitle"⟩⟩) ≠ 1 := by
  refine ⟨by decide, by decide, by decide⟩

/-- C1 amended: a style label that (case-insensitively) STARTS with "title",
or contains "title" and also contains "heading", classifies to heading
level 1, and this takes precedence over any "heading N" substring present. -/
theorem c1_title_level_one (txt s : String)
    (h : startsWithStr "title" (lowerStr s) = true
       ∨ (containsStr "title" (lowerStr s) = true
          ∧ containsStr "heading" (lowerStr s) = true)) :
    heading_level (get_style_name ⟨txt, some ⟨some s⟩⟩) = 1 := by
  have htitle : containsStr "title" (lowerStr s) = true := by
    rcases h with h | h
    · exact strHasSub_of_pre _ _ h
    · exact h.1
  have hguard : (containsStr "heading" (lowerStr s)
      || startsWithStr "title" (lowerStr s)) = true := by
    rcases h with h | h
    · simp [h]
    · simp [h.2]
  rw [get_style_name_pass txt s hguard]
  have hne : lowerStr s ≠ "" := ne_empty_of_sub 't' "itle".data _ htitle
  simp only [heading_level]
  rw [if_neg hne, lowerStr_idem]
  rw [if_pos htitle]

/-- C1 witness: "Title" starts with "title"; "Heading 2 Title" contains both
"title" and "heading 2", and still classifies to level 1. -/
theorem c1_witness :
    heading_level (get_style_name ⟨"x", some ⟨some "Title"⟩⟩) = 1
    ∧ heading_level (get_style_name ⟨"x", some ⟨some "Heading 2 Title"⟩⟩) = 1 :=
  ⟨c1_title_level_one "x" "Title" (Or.inl (by decide)),
   c1_title_level_one "x" "Heading 2 Title" (Or.inr ⟨by decide, by decide⟩)⟩

/-! ### C3: numbered heading labels -/

/-- C3 counterexample: the label "heading 2 heading 3" contains "heading 3",
yet the classifier returns 2, not 3: the loop tries the numbers in
increasing order and "heading 2" matches first. -/
theorem c3_counterexample :
    containsStr "heading 3" (lowerStr "heading 2 heading 3") = true
    ∧ heading_level (get_style_name ⟨"x", some ⟨some "heading 2 heading 3"⟩⟩) = 2
    ∧ heading_level (get_style_name ⟨"x", some ⟨some "heading 2 heading 3"⟩⟩) ≠ 3 := by
  refine ⟨by decide, by decide, by decide⟩

/-- C3 amended: a style label that (case-insensitively) contains
"heading N" or "headingN" for some N in 1..9, does not contain "title", and
contains no "heading M" or "headingM" for any smaller M, classifies to
min(N, 6). (As stated the claim fails: "title" takes precedence, a smaller
matching number takes precedence, and separators other than a single space
are not recognised.) -/
theorem c3_numbered_heading (txt s : String) (N : Nat)
    (hN1 : 1 ≤ N) (hN2 : N ≤ 9)
    (hmatch : (containsStr ("heading " ++ toString N) (lowerStr s)
       || containsStr ("heading" ++ toString N) (lowerStr s)) = true)
    (htitle : containsStr "title" (lowerStr s) = false)
    (hmin : ∀ M ∈ List.range' 1 9, M < N →
      containsStr ("heading " ++ toString M) (lowerStr s) = false
      ∧ containsStr ("heading" ++ toString M) (lowerStr s) = false) :
    heading_level (get_style_name ⟨txt, some ⟨some s⟩⟩) = min N 6 := by
  have hheading : containsStr "heading" (lowerStr s) = true := by
    rw [Bool.or_eq_true] at hmatch
    rcases hmatch with h | h
    · have h' : strHasSub ("heading".data ++ (' ' :: (toString N).data))
          (lowerStr s).data = true := h
      exact strHasSub_of_append _ _ _ h'
    · have h' : strHasSub ("heading".data ++ (toString N).data)
          (lowerStr s).data = true := h
      exact strHasSub_of_append _ _ _ h'
  have hguard : (containsStr "heading" (lowerStr s)
      || startsWithStr "title" (lowerStr s)) = true := by simp [hheading]
  rw [get_style_name_pass txt s hguard]
  have hne : lowerStr s ≠ "" := ne_empty_of_sub 'h' "eading".data _ hheading
  simp only [heading_level]
  rw [if_neg hne, lowerStr_idem]
  rw [if_neg (by simp [htitle])]
  have hfind : (List.range' 1 9).find?
      (fun i => containsStr ("heading " ++ toString i) (lowerStr s)
             || containsStr ("heading" ++ toString i) (lowerStr s)) = some N := by
    refine find?_range'_first _ 1 9 N hN1 (by omega) hmatch ?_
    intro M hM1 hM2
    have hmem : M ∈ List.range' 1 9 := mem_range'_of 1 9 M hM1 (by omega)
    have hm := hmin M hmem hM2
    simp [hm.1, hm.2]
  rw [hfind]

/-- C3 witness: "Heading 3" classifies to level 3 and "HEADING9" (no space)
classifies to the clamped level 6. -/
theorem c3_witness :
    heading_level (get_style_name ⟨"x", some ⟨some "Heading 3"⟩⟩) = 3
    ∧ heading_level (get_style_name ⟨"x", some ⟨some "HEADING9"⟩⟩) = 6 := by
  constructor
  · have h := c3_numbered_heading "x" "Heading 3" 3 (by decide) (by decide)
      (by decide) (by decide) (by decide)
    simpa using h
  · have h := c3_numbered_heading "x" "HEADING9" 9 (by decide) (by decide)
      (by decide) (by decide) (by decide)
    simpa using h

/-! ### C6: fallback classification -/

/-- C6: outside the title rule (label contains "title") and the numbered
rule (label contains "heading N"/"headingN" for N in 1..9): an absent style,
an absent name, or an empty name classify to 0; otherwise the label
classifies to 2 exactly when it contains "heading", else to 0. -/
theorem c6_fallback_levels (txt s : String)
    (htitle : containsStr "title" (lowerStr s) = false)
    (hnum : ∀ i ∈ List.range' 1 9,
      containsStr ("heading " ++ toString i) (lowerStr s) = false
      ∧ containsStr ("heading" ++ toString i) (lowerStr s) = false) :
    heading_level (get_style_name ⟨txt, none⟩) = 0
    ∧ heading_level (get_style_name ⟨txt, some ⟨none⟩⟩) = 0
    ∧ heading_level (get_style_name ⟨txt, some ⟨some ""⟩⟩) = 0
    ∧ heading_level (get_style_name ⟨txt, some ⟨some s⟩⟩)
        = (if containsStr "heading" (lowerStr s) = true then 2 else 0) := by
  refine ⟨rfl, rfl, rfl, ?_⟩
  by_cases hh : containsStr "heading" (lowerStr s) = true
  · rw [get_style_name_pass txt s (by simp [hh])]
    have hne : lowerStr s ≠ "" := ne_empty_of_sub 'h' "eading".data _ hh
    simp only [heading_level]
    rw [if_neg hne, lowerStr_idem]
    rw [if_neg (by simp [htitle])]
    have hfind : (List.range' 1 9).find?
        (fun i => containsStr ("heading " ++ toString i) (lowerStr s)
               || containsStr ("heading" ++ toString i) (lowerStr s)) = none := by
      refine List.find?_eq_none.mpr ?_
      intro i hi
      have h := hnum i hi
      simp [h.1, h.2]
    rw [hfind, if_pos hh]
  · have hpre : startsWithStr "title" (lowerStr s) = false := by
      by_contra hcon
      rw [Bool.not_eq_false] at hcon
      have hsub : containsStr "title" (lowerStr s) = true :=
        strHasSub_of_pre _ _ hcon
      rw [hsub] at htitle
      simp at htitle
    have hh2 : containsStr "heading" (lowerStr s) = false := by
      simpa using hh
    rw [get_style_name_fail txt s (by simp [hh2, hpre])]
    rw [if_neg hh]
    decide

/-- C6 witness: concrete labels for each fallback rule. -/
theorem c6_witness :
    heading_level (get_style_name ⟨"x", none⟩) = 0
    ∧ heading_level (get_style_name ⟨"x", some ⟨none⟩⟩) = 0
    ∧ heading_level (get_style_name ⟨"x", some ⟨some ""⟩⟩) = 0
    ∧ heading_level (get_style_name ⟨"x", some ⟨some "My Heading Style"⟩⟩) = 2 := by
  have h := c6_fallback_levels "x" "My Heading Style" (by decide) (by decide)
  refine ⟨h.1, h.2.1, h.2.2.1, ?_⟩
  have h4 := h.2.2.2
  rw [if_pos (by decide)] at h4
  exact h4

/-! ### Paragraph rendering lemmas -/

/-- A paragraph produces the empty line exactly when its stripped text is
empty. -/
lemma paragraph_to_md_eq_empty (p : Paragraph) :
    paragraph_to_md p = "" ↔ pyStrip p.text = "" := by
  simp only [paragraph_to_md]
  by_cases h : pyStrip p.text = ""
  · simp [h]
  · rw [if_neg h]
    constructor
    · intro hcon
      by_cases hl : 1 ≤ heading_level (get_style_name p)
      · rw [if_pos hl] at hcon
        have hdata := congrArg String.data hcon
        have hrep : (String.mk (List.replicate (heading_level (get_style_name p)) '#')
            ++ " " ++ pyStrip p.text).data
            = List.replicate (heading_level (get_style_name p)) '#'
              ++ " ".data ++ (pyStrip p.text).data := rfl
        rw [hrep] at hdata
        obtain ⟨k, hk⟩ := Nat.exists_eq_add_of_le hl
        rw [hk] at hdata
        simp [List.replicate] at hdata
      · rw [if_neg hl] at hcon
        exact hcon
    · intro hcon
      exact absurd hcon h

/-- Dropping the paragraphs whose stripped text is empty does not change the
collected non-empty lines. -/
lemma filter_para_lines (ps : List Paragraph) :
    (((ps.filter (fun q => pyStrip q.text ≠ "")).map paragraph_to_md).filter
        (fun l => l ≠ ""))
      = ((ps.map paragraph_to_md).filter (fun l => l ≠ "")) := by
  induction ps with
  | nil => rfl
  | cons p ps ih =>
    by_cases h : pyStrip p.text = ""
    · have hline : paragraph_to_md p = "" := (paragraph_to_md_eq_empty p).mpr h
      simp only [List.filter_cons, List.map_cons]
      rw [if_neg (by simp [h]), if_neg (by simp [hline])]
      exact ih
    · have hline : paragraph_to_md p ≠ "" :=
        fun hcon => h ((paragraph_to_md_eq_empty p).mp hcon)
      simp only [List.filter_cons, List.map_cons]
      rw [if_pos (by simp [h]), List.map_cons, List.filter_cons,
        if_pos (by simp [hline]), if_pos (by simp [hline])]
      rw [ih]

/-! ### C5: paragraph rendering -/

/-- C5: the renderer trims each paragraph, emits no line for an empty or
whitespace-only text (dropping such paragraphs leaves the output unchanged),
emits `level` hash marks, a space and the trimmed text when the classified
level is at least 1, and the bare trimmed text otherwise. -/
theorem c5_paragraph_rendering (ps : List Paragraph)
    (ts : List (List (List String))) (p : Paragraph) :
    docx_to_md ⟨ps, ts⟩ = docx_to_md ⟨ps.filter (fun q => pyStrip q.text ≠ ""), ts⟩
    ∧ (p.text.data.all pyIsSpace = true → paragraph_to_md p = "")
    ∧ (pyStrip p.text ≠ "" → 1 ≤ heading_level (get_style_name p) →
        paragraph_to_md p
          = String.mk (List.replicate (heading_level (get_style_name p)) '#')
            ++ " " ++ pyStrip p.text)
    ∧ (pyStrip p.text ≠ "" → heading_level (get_style_name p) = 0 →
        paragraph_to_md p = pyStrip p.text) := by
  refine ⟨?_, ?_, ?_, ?_⟩
  · rw [docx_eq, docx_eq]
    show String.intercalate "\n\n"
        ((ps.map paragraph_to_md).filter (fun l => l ≠ "") ++ _) = _
    rw [← filter_para_lines ps]
  · intro h
    exact (paragraph_to_md_eq_empty p).mpr (pyStrip_eq_empty p.text h)
  · intro h1 h2
    simp only [paragraph_to_md]
    rw [if_neg h1, if_pos h2]
  · intro h1 h2
    simp only [paragraph_to_md]
    rw [if_neg h1, if_neg (by omega)]

/-- C5 witness: a whitespace-only paragraph renders to nothing; a "Heading 2"
paragraph renders to a two-hash line; a "Normal" paragraph renders bare. -/
theorem c5_witness :
    paragraph_to_md ⟨" \t ", none⟩ = ""
    ∧ paragraph_to_md ⟨" hi ", some ⟨some "Heading 2"⟩⟩ = "## hi"
    ∧ paragraph_to_md ⟨" hi ", some ⟨some "Normal"⟩⟩ = "hi" := by
  refine ⟨(c5_paragraph_rendering [] [] ⟨" \t ", none⟩).2.1 (by decide), ?_, ?_⟩
  · have h := (c5_paragraph_rendering [] [] ⟨" hi ", some ⟨some "Heading 2"⟩⟩).2.2.1
      (by decide) (by decide)
    rw [h]
    decide
  · have h := (c5_paragraph_rendering [] [] ⟨" hi ", some ⟨some "Normal"⟩⟩).2.2.2
      (by decide) (by decide)
    rw [h]
    decide

/-! ### C10: blank documents -/

/-- C10: a document whose paragraphs are all empty or whitespace-only and
whose tables all have zero rows renders to the empty string. -/
theorem c10_blank_document (doc : DocxDocument)
    (h1 : ∀ p ∈ doc.paragraphs, p.text.data.all pyIsSpace = true)
    (h2 : ∀ t ∈ doc.tables, t = ([] : List (List String))) :
    docx_to_md doc = "" := by
  rw [docx_eq]
  have hp : (doc.paragraphs.map paragraph_to_md).filter (fun l => l ≠ "") = [] := by
    rw [List.filter_eq_nil_iff]
    intro l hl
    rw [List.mem_map] at hl
    obtain ⟨p, hp1, hp2⟩ := hl
    subst hp2
    simp [(paragraph_to_md_eq_empty p).mpr (pyStrip_eq_empty p.text (h1 p hp1))]
  have ht : (doc.tables.map tableBlock).flatten = [] := by
    rw [List.flatten_eq_nil_iff]
    intro x hx
    rw [List.mem_map] at hx
    obtain ⟨t, ht1, ht2⟩ := hx
    subst ht2
    rw [h2 t ht1]
    rfl
  rw [hp, ht]
  rfl

/-- C10 witness: one whitespace paragraph plus one zero-row table render to
the empty string. -/
theorem c10_witness : docx_to_md ⟨[⟨" \t", none⟩], [[]]⟩ = "" :=
  c10_blank_document ⟨[⟨" \t", none⟩], [[]]⟩ (by decide) (by decide)

/-! ### C2: the separator line -/

/-- C2 counterexample: a table with exactly one row gets NO separator line
at all — the source only inserts it when there are at least two rendered
rows — refuting the claim for "every table with at least one row". -/
theorem c2_counterexample :
    docx_to_md ⟨[], [[["a"]]]⟩ = "\n\n| a |\n\n"
    ∧ tableStep [] [["a"]] = ["", "| a |", ""]
    ∧ sepLine 1 ∉ tableStep [] [["a"]] := by
  refine ⟨by decide, by decide, by decide⟩

/-- C2 amended: for every table with at least TWO rows, a separator line
sized by the number of cells of the first row is inserted immediately after
the first row's line, regardless of the other rows' cell counts. -/
theorem c2_separator_after_header (lines : List String)
    (r0 r1 : List String) (rest : List (List String)) :
    tableStep lines (r0 :: r1 :: rest)
      = lines ++ ["", rowLine r0, sepLine r0.length, rowLine r1]
        ++ rest.map rowLine ++ [""] := by
  rw [tableStep_eq]
  simp [tableBlock]

/-! ### C4: a 2-by-3 table -/

/-- C4: a 2-row, 3-column table renders to exactly a header row line, one
3-column separator line and one data row line, each framed by blank lines
and nothing else. -/
theorem c4_two_by_three (a b c d e f : String) :
    docx_to_md ⟨[], [[[a, b, c], [d, e, f]]]⟩
      = String.intercalate "\n\n"
          ["", rowLine [a, b, c], sepLine 3, rowLine [d, e, f], ""]
    ∧ sepLine 3 = "| --- | --- | --- |" := by
  constructor
  · rw [docx_eq]
    simp [tableBlock]
  · decide

/-! ### C7: output ordering -/

/-- C7: the output is the blank-line join of all non-empty paragraph lines
followed by all table blocks, paragraphs first, never interleaved by
document position. -/
theorem c7_paragraphs_then_tables (doc : DocxDocument) :
    docx_to_md doc = String.intercalate "\n\n"
      ((doc.paragraphs.map paragraph_to_md).filter (fun l => l ≠ "")
        ++ (doc.tables.map tableBlock).flatten) := docx_eq doc

/-! ### C8: zero-row tables -/

/-- C8: a zero-row table contributes nothing to the output — removing it
from the document, wherever it sits among the tables, leaves the rendered
string unchanged (so not even framing blank lines are emitted for it). -/
theorem c8_zero_row_table (ps : List Paragraph)
    (ts1 ts2 : List (List (List String))) :
    docx_to_md ⟨ps, ts1 ++ ([] : List (List String)) :: ts2⟩
      = docx_to_md ⟨ps, ts1 ++ ts2⟩ := by
  rw [docx_eq, docx_eq]
  simp [tableBlock]

/-! ### C9: cell text preservation -/

/-- C9: each rendered row joins its cells' texts with the column delimiter,
wrapped by delimiters at both ends; each cell's text is exactly the original
text minus leading/trailing whitespace, with every internal newline turned
into a single space and no other character lost or changed. -/
theorem c9_cell_preservation (cells : List String) (c : String) :
    rowLine cells = "| " ++ String.intercalate " | " (cells.map cellText) ++ " |"
    ∧ (∃ pre suf : List Char, pre.all pyIsSpace = true ∧ suf.all pyIsSpace = true
        ∧ c.data = pre ++ (pyStrip c).data ++ suf)
    ∧ (cellText c).data
        = (pyStrip c).data.map (fun ch => if ch == '\n' then ' ' else ch) := by
  refine ⟨rfl, ?_, rfl⟩
  obtain ⟨pre, suf, h1, h2, h3⟩ := stripL_decomp c.data
  exact ⟨pre, suf, h1, h2, h3⟩
